import Mathlib

/-!
Shallow embedding of the PCM sample engine of TrimReaper:
the silence trimmer and zero-crossing locator of src/audio_trim.py and the
peak normalizer and 24-bit codec of src/audio_normalize.py.

Modelling conventions.  Python integers are Lean integers and Python
lists/arrays are Lean lists of integers.  Python float parameters are
rationals where the code only compares them against integer-derived
quantities (the threshold_db of the trimmer and min_duration_sec) and reals where
a transcendental power is computed (the target_peak_db of the normalizer).  A code
path that can raise an exception - IndexError from out-of-range list
indexing, ValueError from max() over an empty sequence - is modelled with
Option, none standing for the raised exception, which the top-level
functions catch (returning failure and writing no output).
-/

namespace TrimReaper

set_option maxRecDepth 8192

/-- Python range(start, stop) with step 1, over the integers. -/
def pyRangeUp (start stop : ℤ) : List ℤ :=
  (List.range (stop - start).toNat).map (fun k : ℕ => start + (k : ℤ))

/-- Python range(start, stop, -1) with step -1, over the integers. -/
def pyRangeDown (start stop : ℤ) : List ℤ :=
  (List.range (start - stop).toNat).map (fun k : ℕ => start - (k : ℤ))

/-- Python list indexing l[i]: a negative index addresses from the end
(i + len), and an index outside the list raises IndexError, modelled as
none. -/
def getI (l : List ℤ) (i : ℤ) : Option ℤ :=
  if hneg : i < 0 then
    if h : 0 ≤ i + l.length then some (l.get ⟨(i + l.length).toNat, by omega⟩) else none
  else
    if h : i < (l.length : ℤ) then some (l.get ⟨i.toNat, by omega⟩) else none

/-- Python int(x * k) for rational x and integer k: the product is the
exact rational x.num * k / x.den, and int() truncates toward zero, which is
the T-division of the numerator by the (positive) denominator. -/
def pyIntOfMul (x : ℚ) (k : ℤ) : ℤ := Int.tdiv (x.num * k) (x.den : ℤ)

/-- Python int() on a real: truncation toward zero. -/
noncomputable def pyIntR (x : ℝ) : ℤ := if 0 ≤ x then ⌊x⌋ else ⌈x⌉

/-- Real-valued dB level of a magnitude a relative to full scale m, from
calculate_db_level in audio_trim.py lines 8-15: 20*log10(a/m), where a
magnitude of zero is minus infinity dB (modelled on EReal, so that silence
is never counted as loud).  Only the comparison of this level against a
threshold is ever used by the code. -/
noncomputable def calculate_db_level (a m : ℤ) : EReal :=
  let normalized : ℝ := (a : ℝ) / (m : ℝ)
  if normalized ≤ 0 then ⊥ else ((20 * Real.logb 10 normalized : ℝ) : EReal)

/-- Decidable form of the comparison calculate_db_level(sample,zero,max_val)
> threshold_db with magnitude a = |sample - zero|: for 0 < m the comparison
20*log10(a/m) > t holds iff 0 < a and (a/m)^(20*t.den) > 10^t.num (raise
both sides of a/m > 10^(t/20) to the power 20*t.den), which after clearing
the denominator m^(20*t.den) and the power of ten is the integer comparison
below.  The equivalence with the real logarithm form is proved in
db_gt_iff_level. -/
def db_gt (a m : ℤ) (t : ℚ) : Bool :=
  decide (0 < a) &&
    (if 0 ≤ t.num then decide (10 ^ t.num.toNat * m ^ (20 * t.den) < a ^ (20 * t.den))
     else decide (m ^ (20 * t.den) < a ^ (20 * t.den) * 10 ^ (-t.num).toNat))

/-- Zero-straddle test between a sample and its neighbour, from
audio_trim.py lines 26-27 and 35-36: one sample on or above zero with the
neighbour strictly below, or one on or below zero with the neighbour
strictly above. -/
def crossesAt (a b : ℤ) : Bool :=
  (decide (0 ≤ a) && decide (b < 0)) || (decide (a ≤ 0) && decide (0 < b))

/-- One search loop of find_zero_crossing: walk the index list, at each
index i read samples[i] and samples[i+off] (off = 1 forward, -1 backward)
and stop at the first pair that straddles zero.  The backward loop guards
each iteration with `if i > 0` (audio_trim.py line 33); guarded records
that.  Result: none models an IndexError from the indexing, some none means
the loop finished without finding a crossing, some (some i) is the crossing
index. -/
def zcScan (samples : List ℤ) (off : ℤ) (guarded : Bool) : List ℤ → Option (Option ℤ)
  | [] => some none
  | i :: rest =>
    if guarded ∧ i ≤ 0 then zcScan samples off guarded rest
    else
      match getI samples i, getI samples (i + off) with
      | some a, some b =>
        if crossesAt a b then some (some i) else zcScan samples off guarded rest
      | _, _ => none

/-- Search direction of find_zero_crossing; the source passes the strings
forward and backward. -/
inductive Direction
  | forward
  | backward

/-- find_zero_crossing from audio_trim.py lines 17-40.  Forward: scan
range(position, min(position+window, len-1) - 1) comparing samples[i] with
samples[i+1].  Backward: scan range(position, max(0, position-window), -1)
comparing samples[i] with samples[i-1] under the `if i > 0` guard.  If no
crossing is found the original position is returned; an out-of-range access
(IndexError) yields none. -/
def find_zero_crossing (samples : List ℤ) (position : ℤ) : Direction → ℤ → Option ℤ
  | .forward, window =>
    match zcScan samples 1 false
        (pyRangeUp position (min (position + window) ((samples.length : ℤ) - 1) - 1)) with
    | none => none
    | some none => some position
    | some (some i) => some i
  | .backward, window =>
    match zcScan samples (-1) true (pyRangeDown position (max 0 (position - window))) with
    | none => none
    | some none => some position
    | some (some i) => some i

/-- Maximum magnitude |samples[j] - zero| over j in range(i, stop).  The
window maximum dB level of audio_trim.py line 52 is the dB level of this
peak, because the dB level is monotone in the magnitude, so comparing the
maximum dB level of the window against threshold_db is comparing db_gt of this
peak (see db_gt_mono below). -/
def window_peak (samples : List ℤ) (zero i stop : ℤ) : ℤ :=
  ((pyRangeUp i stop).map (fun j => |samples.getD j.toNat 0 - zero|)).foldr max 0

/-- find_end_point from audio_trim.py lines 42-65: scanning i backward over
range(len - window_size, 0, -1), the first window [i, min(i+window_size,
len)) whose maximum dB level exceeds threshold_db gives the raw end point
min(i + window_size + min_samples, len) with min_samples =
int(min_duration_sec * framerate) (pyIntOfMul), then moved backward to the
nearest zero crossing (line 60); if no window exceeds the threshold the
whole length is returned. -/
def find_end_point (samples : List ℤ) (zero max_val : ℤ) (threshold_db : ℚ) (window_size : ℤ) (min_duration_sec : ℚ) (framerate : ℤ) : Option ℤ :=
  let min_samples := pyIntOfMul min_duration_sec framerate
  let n : ℤ := samples.length
  match (pyRangeDown (n - window_size) 0).find?
      (fun i => db_gt (window_peak samples zero i (min (i + window_size) n)) max_val threshold_db) with
  | some i => find_zero_crossing samples (min (i + window_size + min_samples) n) .backward 1000
  | none => some n

/-- Helper loop of takeEvery: keep the next element when the countdown hits
zero and restart it at n - 1, else skip. -/
def takeEveryAux (n : ℕ) : ℕ → List ℤ → List ℤ
  | _, [] => []
  | 0, x :: xs => x :: takeEveryAux n (n - 1) xs
  | k + 1, _ :: xs => takeEveryAux n k xs

/-- Every n-th element of a list starting at its head; channel c of an
interleaved stream is takeEvery n of the stream with the first c samples
dropped. -/
def takeEvery (n : ℕ) (l : List ℤ) : List ℤ := takeEveryAux n 0 l

/-- Channel split of audio_trim.py lines 198-200: sample i goes to channel
i % n_channels in order, so channel c holds samples c, c+n, c+2n, ... -/
def splitChannels (n : ℕ) (samples : List ℤ) : List (List ℤ) :=
  (List.range n).map (fun c => takeEvery n (samples.drop c))

/-- Cut-point computation of the multi-channel WAV path, audio_trim.py
lines 196-221: per-channel end points via find_end_point (window_size 1024
as in the default of the source), the latest (maximum) end point wins, and when
channel 0 is non-empty the end point is moved to the zero crossing found
backward from min(end_point, len(channel 0) - 1) in channel 0 (raw)
samples.  Python max() over an empty list raises, hence Option. -/
def trim_end_point (samples : List ℤ) (n_channels : ℕ) (zero maxv : ℤ) (threshold_db min_duration_sec : ℚ) (framerate : ℤ) : Option ℤ :=
  let chs := splitChannels n_channels samples
  match chs.mapM (fun ch => find_end_point ch zero maxv threshold_db 1024 min_duration_sec framerate) with
  | none => none
  | some eps =>
    match eps.max? with
    | none => none
    | some ep =>
      let ch0 := chs.headD []
      if 0 < ch0.length then
        find_zero_crossing ch0 (min ep ((ch0.length : ℤ) - 1)) .backward 1000
      else some ep

/-- Python slice l[:k]: a negative k counts from the end. -/
def pyTake (l : List ℤ) (k : ℤ) : List ℤ :=
  if k < 0 then l.take ((l.length : ℤ) + k).toNat else l.take k.toNat

/-- Sample-level core of trim_audio_file (WAV path), audio_trim.py lines
196-238.  Multi-channel: cut point from trim_end_point, then each channel
contributes its first min(end_point, len(channel)) samples appended channel
after channel (the recombination loop of lines 223-228 appends whole
channels in sequence).  Single channel: find_end_point, another backward
zero-crossing search from it, then the slice samples[:end_point]. -/
def trim_samples (samples : List ℤ) (n_channels : ℕ) (zero maxv : ℤ) (threshold_db min_duration_sec : ℚ) (framerate : ℤ) : Option (List ℤ) :=
  if 1 < n_channels then
    match trim_end_point samples n_channels zero maxv threshold_db min_duration_sec framerate with
    | none => none
    | some ep =>
      let chs := splitChannels n_channels samples
      some ((chs.map (fun ch => ch.take (min ep (ch.length : ℤ)).toNat)).flatten)
  else
    match find_end_point samples zero maxv threshold_db 1024 min_duration_sec framerate with
    | none => none
    | some ep =>
      match find_zero_crossing samples ep .backward 1000 with
      | none => none
      | some ep2 => some (pyTake samples ep2)

/-- Frame-major interleaving of two equally long channels. -/
def interleave2 : List ℤ → List ℤ → List ℤ
  | x :: xs, y :: ys => x :: y :: interleave2 xs ys
  | _, _ => []

/-- Peak magnitude max(abs(s - zero) for s in samples) of
audio_normalize.py line 70, as a fold (samples are always run through abs,
so the fold over nonnegative values with initial value 0 agrees with
the Python max on any non-empty list; on an empty list the Python max raises,
which normalize_samples handles). -/
def peakOf (samples : List ℤ) (zero : ℤ) : ℤ :=
  (samples.map (fun s => |s - zero|)).foldr max 0

/-- Sample-level core of normalize_audio_file, audio_normalize.py lines
69-102: peak detection, target_peak_linear = 10^(target_peak_db/20) *
max_val, gain 1.0 with a silence warning when the peak is zero, and the
per-sample rescale samples[i] = max(min(int((s - zero)*scale + zero),
max_val), -max_val if zero == 0 else 0).  The returned Bool is the silence
warning flag; none models the ValueError of max() on an empty buffer. -/
noncomputable def normalize_samples (samples : List ℤ) (zero maxv : ℤ) (target_peak_db : ℝ) : Option (List ℤ × Bool) :=
  if samples.isEmpty then none
  else
    let peak := peakOf samples zero
    let target_peak_linear : ℝ := Real.rpow 10 (target_peak_db / 20) * (maxv : ℝ)
    let scale_factor : ℝ := if peak = 0 then 1 else target_peak_linear / (peak : ℝ)
    some (samples.map
        (fun s => max (min (pyIntR (((s : ℤ) - zero) * scale_factor + zero)) maxv)
          (if zero = 0 then -maxv else 0)),
      decide (peak = 0))

/-- Signed reinterpretation of an unsigned 32-bit pattern, as done by
array.array frombytes on the 4-byte groups. -/
def toSigned32 (u : ℕ) : ℤ := if u < 2 ^ 31 then (u : ℤ) else (u : ℤ) - 2 ^ 32

/-- 24-bit decode of audio_normalize.py lines 37-52: each full 3-byte
little-endian group is sign-extended with a fourth byte 0xFF when, and only
when, the top bit of the third byte is set (b3 & 128, which for a byte
value is 128 ≤ b3), and read as a signed 32-bit integer; a trailing partial
group (the guard i + 2 < len) is dropped. -/
def decode24 : List ℕ → List ℤ
  | b1 :: b2 :: b3 :: rest =>
    toSigned32 (b1 + 256 * b2 + 65536 * b3 + 16777216 * (if 128 ≤ b3 then 255 else 0))
      :: decode24 rest
  | _ => []

/-- 24-bit encode of audio_normalize.py lines 91-100: each working sample
is reduced to its unsigned 32-bit twos-complement pattern (s & 0xFFFFFFFF)
and its three low bytes are emitted little-endian. -/
def encode24 (samples : List ℤ) : List ℕ :=
  (samples.map (fun s =>
    let u := (s % 2 ^ 32).toNat
    [u % 256, u / 256 % 256, u / 65536 % 256])).flatten

/-! Helper lemmas about the fold that realizes the Python max over magnitudes. -/

lemma foldr_max_nonneg (l : List ℤ) : 0 ≤ l.foldr max 0 := by
  induction l with
  | nil => simp
  | cons x t ih => exact le_trans ih (le_max_right x _)

lemma le_foldr_max {l : List ℤ} {x : ℤ} (hx : x ∈ l) : x ≤ l.foldr max 0 := by
  induction l with
  | nil => cases hx
  | cons y t ih =>
    rcases List.mem_cons.mp hx with h | h
    · subst h; exact le_max_left _ _
    · exact le_trans (ih h) (le_max_right _ _)

lemma foldr_max_le {l : List ℤ} {B : ℤ} (hB : 0 ≤ B) (h : ∀ x ∈ l, x ≤ B) :
    l.foldr max 0 ≤ B := by
  induction l with
  | nil => simpa using hB
  | cons y t ih =>
    refine max_le (h y (List.mem_cons_self y t)) (ih ?_)
    exact fun x hx => h x (List.mem_cons_of_mem y hx)

lemma peakOf_eq_zero_iff {samples : List ℤ} {zero : ℤ} :
    peakOf samples zero = 0 ↔ ∀ s ∈ samples, s = zero := by
  constructor
  · intro h s hs
    have hle : |s - zero| ≤ peakOf samples zero := by
      unfold peakOf
      exact le_foldr_max (List.mem_map_of_mem _ hs)
    rw [h] at hle
    have h0 : |s - zero| = 0 := le_antisymm hle (abs_nonneg _)
    have := abs_eq_zero.mp h0
    omega
  · intro h
    unfold peakOf
    refine le_antisymm (foldr_max_le le_rfl ?_) (foldr_max_nonneg _)
    intro x hx
    rcases List.mem_map.mp hx with ⟨s, hs, rfl⟩
    simp [h s hs]

lemma pyIntR_intCast (z : ℤ) : pyIntR (z : ℝ) = z := by
  unfold pyIntR
  split <;> simp

/-! The 24-bit codec round trip. -/

lemma decode_encode_group (s : ℤ) (h1 : -(2 ^ 23) ≤ s) (h2 : s ≤ 2 ^ 23 - 1) :
    toSigned32 ((s % 2 ^ 32).toNat % 256 + 256 * ((s % 2 ^ 32).toNat / 256 % 256)
      + 65536 * ((s % 2 ^ 32).toNat / 65536 % 256)
      + 16777216 * (if 128 ≤ (s % 2 ^ 32).toNat / 65536 % 256 then 255 else 0)) = s := by
  unfold toSigned32
  split_ifs <;> omega

lemma encode24_cons (s : ℤ) (rest : List ℤ) :
    encode24 (s :: rest) = (s % 2 ^ 32).toNat % 256 :: (s % 2 ^ 32).toNat / 256 % 256 ::
      (s % 2 ^ 32).toNat / 65536 % 256 :: encode24 rest := by
  simp [encode24]

lemma decode24_encode24 (samples : List ℤ)
    (h : ∀ s ∈ samples, -(2 ^ 23) ≤ s ∧ s ≤ 2 ^ 23 - 1) :
    decode24 (encode24 samples) = samples := by
  induction samples with
  | nil => rfl
  | cons s rest ih =>
    rw [encode24_cons, decode24]
    have hs := h s (List.mem_cons_self s rest)
    rw [decode_encode_group s hs.1 hs.2, ih (fun x hx => h x (List.mem_cons_of_mem s hx))]

/-- C3: the 24-bit codec round-trips: decoding sign-extends each full
3-byte little-endian group (synthesized 4th byte 0xFF exactly when the top
bit of the third byte is set), drops a trailing partial group, and encoding
emits the three low bytes of the twos-complement 32-bit pattern, so
decode24 (encode24 samples) = samples for every sequence of in-range
(24-bit representable) samples; in particular -1 encodes to FF FF FF and
those bytes decode back to -1. -/
theorem c3_codec_roundtrip :
    (∀ samples : List ℤ, (∀ s ∈ samples, -(2 ^ 23) ≤ s ∧ s ≤ 2 ^ 23 - 1) →
      decode24 (encode24 samples) = samples) ∧
    encode24 [-1] = [255, 255, 255] ∧ decode24 [255, 255, 255] = [-1] :=
  ⟨decode24_encode24, by decide, by decide⟩

/-- Witness for C3 at a concrete sample sequence covering both range ends. -/
theorem c3_codec_roundtrip_witness :
    decode24 (encode24 [-8388608, 5, -1, 8388607, 0, 123456]) = [-8388608, 5, -1, 8388607, 0, 123456] :=
  c3_codec_roundtrip.1 _ (by decide)

/-! Peak normalization. -/

/-- Shared evaluation: normalizing a non-empty buffer whose peak is zero
returns the input unchanged with the silence flag set. -/
lemma normSilentEval (samples : List ℤ) (zero maxv : ℤ) (t : ℝ)
    (hne : samples ≠ []) (hpeak : peakOf samples zero = 0)
    (h0 : 0 ≤ zero) (h1 : zero ≤ maxv) :
    normalize_samples samples zero maxv t = some (samples, true) := by
  have hall : ∀ s ∈ samples, s = zero := peakOf_eq_zero_iff.mp hpeak
  unfold normalize_samples
  rw [if_neg (by simpa [List.isEmpty_iff] using hne)]
  rw [hpeak]
  simp only [if_pos rfl, decide_eq_true_eq]
  refine congrArg some (Prod.ext ?_ (by simp))
  have : samples.map (fun s =>
      max (min (pyIntR (((s : ℤ) - zero) * 1 + zero)) maxv) (if zero = 0 then -maxv else 0))
      = samples.map id := by
    refine List.map_congr_left ?_
    intro s hs
    rw [hall s hs]
    have hcast : (((zero : ℤ) : ℝ) - (zero : ℤ)) * 1 + (zero : ℤ) = ((zero : ℤ) : ℝ) := by ring
    rw [hcast, pyIntR_intCast]
    by_cases hz : zero = 0
    · subst hz; simp only [if_pos rfl, id]; omega
    · rw [if_neg hz, min_eq_left h1, max_eq_left h0]
      rfl
  simpa using this

/-- The clamp max(min(v, maxv), lower) saturates into the representable
band and keeps the magnitude relative to the zero point within maxv. -/
lemma clamp_bounds (v zero maxv : ℤ) (h0 : 0 ≤ zero) (h1 : zero ≤ maxv) :
    ((if zero = 0 then -maxv else 0) ≤ max (min v maxv) (if zero = 0 then -maxv else 0) ∧
      max (min v maxv) (if zero = 0 then -maxv else 0) ≤ maxv) ∧
    |max (min v maxv) (if zero = 0 then -maxv else 0) - zero| ≤ maxv := by
  refine ⟨⟨le_max_right _ _, ?_⟩, ?_⟩
  · split_ifs <;> omega
  · rw [abs_le]
    split_ifs <;> constructor <;> omega

/-- C5: a non-empty buffer whose peak magnitude is zero is normalized with
gain fixed at 1.0, the silence condition is reported as the warning flag
(not an error), and the output samples are identical to the input. -/
theorem c5_silence_preserved (samples : List ℤ) (zero maxv : ℤ) (t : ℝ)
    (hne : samples ≠ []) (hpeak : peakOf samples zero = 0)
    (h0 : 0 ≤ zero) (h1 : zero ≤ maxv) :
    normalize_samples samples zero maxv t = some (samples, true) :=
  normSilentEval samples zero maxv t hne hpeak h0 h1

/-- Witness for C5 on a concrete 8-bit silent buffer. -/
theorem c5_silence_preserved_witness :
    normalize_samples [128, 128] 128 255 (-(1 : ℝ) / 10) = some ([128, 128], true) :=
  c5_silence_preserved [128, 128] 128 255 (-(1 : ℝ) / 10)
    (by decide) (by decide) (by decide) (by decide)

/-- C6: every sample a successful normalization returns lies between the
lower clamp bound (0 for unsigned formats, -max_magnitude for
signed ones) and max_magnitude, so its magnitude relative to the zero point
never exceeds max_magnitude, whatever the target peak. -/
theorem c6_output_clamped (samples : List ℤ) (zero maxv : ℤ) (t : ℝ)
    (out : List ℤ) (flag : Bool) (h0 : 0 ≤ zero) (h1 : zero ≤ maxv)
    (h : normalize_samples samples zero maxv t = some (out, flag)) :
    ∀ o ∈ out, ((if zero = 0 then -maxv else 0) ≤ o ∧ o ≤ maxv) ∧ |o - zero| ≤ maxv := by
  unfold normalize_samples at h
  by_cases he : samples.isEmpty
  · rw [if_pos he] at h; cases h
  rw [if_neg he] at h
  have hout : out = samples.map (fun s =>
      max (min (pyIntR (((s : ℤ) - zero) * (if peakOf samples zero = 0 then 1
          else Real.rpow 10 (t / 20) * (maxv : ℝ) / (peakOf samples zero : ℝ)) + zero)) maxv)
        (if zero = 0 then -maxv else 0)) := by
    have := (Option.some.inj h)
    exact (congrArg Prod.fst this).symm
  intro o ho
  rw [hout] at ho
  rcases List.mem_map.mp ho with ⟨s, _, rfl⟩
  exact clamp_bounds _ zero maxv h0 h1

/-- Witness for C6 on a concrete silent 16-bit buffer. -/
theorem c6_output_clamped_witness :
    ((if (0 : ℤ) = 0 then -(32767 : ℤ) else 0) ≤ 0 ∧ (0 : ℤ) ≤ 32767) ∧ |(0 : ℤ) - 0| ≤ 32767 :=
  c6_output_clamped [0, 0] 0 32767 (-1) [0, 0] true (by decide) (by decide)
    (normSilentEval [0, 0] 0 32767 (-1) (by decide) (by decide) (by decide) (by decide))
    0 (by decide)

/-- Counterexample to C7 as stated: normalizing a zero-length buffer is an
error in the code (the Python max() raises ValueError on the empty magnitude
sequence, the handler returns failure), it does not succeed with an empty
result. -/
theorem c7_empty_cex : normalize_samples ([] : List ℤ) 0 32767 (-1) = none := by
  simp [normalize_samples]

/-- C7 amended: normalizing a zero-length buffer fails (the peak scan
raises and no output is produced); every non-empty buffer is normalized
successfully, to an output of the same length. -/
theorem c7_empty_fails :
    (∀ (zero maxv : ℤ) (t : ℝ), normalize_samples [] zero maxv t = none) ∧
    (∀ (samples : List ℤ) (zero maxv : ℤ) (t : ℝ), samples ≠ [] →
      ∃ out flag, normalize_samples samples zero maxv t = some (out, flag) ∧
        out.length = samples.length) := by
  constructor
  · intro zero maxv t
    simp [normalize_samples]
  · intro samples zero maxv t hne
    unfold normalize_samples
    rw [if_neg (by simpa [List.isEmpty_iff] using hne)]
    exact ⟨_, _, rfl, by simp⟩

/-- Witness for C7 amended: a one-sample buffer normalizes successfully. -/
theorem c7_empty_fails_witness :
    (normalize_samples [5] 0 32767 (-1)).isSome = true := by
  obtain ⟨out, flag, h, _⟩ := c7_empty_fails.2 [5] 0 32767 (-1) (by decide)
  rw [h]
  rfl

/-- C10: the normalizer converts each rescaled value to an integer with
the Python int(), i.e. truncation toward zero (floor for nonnegative reals,
ceiling for negative ones) before clamping; truncation differs from
rounding to nearest (37/10 truncates to 3 and rounds to 4) and from
flooring (-33/10 truncates to -3 while its floor is -4). -/
theorem c10_truncation (samples : List ℤ) (zero maxv : ℤ) (t : ℝ)
    (out : List ℤ) (flag : Bool)
    (h : normalize_samples samples zero maxv t = some (out, flag)) :
    (out = samples.map (fun s =>
      max (min (pyIntR (((s : ℤ) - zero) * (if peakOf samples zero = 0 then 1
          else Real.rpow 10 (t / 20) * (maxv : ℝ) / (peakOf samples zero : ℝ)) + zero)) maxv)
        (if zero = 0 then -maxv else 0))) ∧
    (∀ x : ℝ, 0 ≤ x → pyIntR x = ⌊x⌋) ∧ (∀ x : ℝ, x < 0 → pyIntR x = ⌈x⌉) ∧
    (pyIntR ((37 : ℝ) / 10) = 3 ∧ round ((37 : ℝ) / 10) = 4) ∧
    (pyIntR (-(33 : ℝ) / 10) = -3 ∧ ⌊-(33 : ℝ) / 10⌋ = -4) := by
  refine ⟨?_, ?_, ?_, ⟨?_, ?_⟩, ⟨?_, ?_⟩⟩
  · unfold normalize_samples at h
    by_cases he : samples.isEmpty
    · rw [if_pos he] at h; cases h
    rw [if_neg he] at h
    exact (congrArg Prod.fst (Option.some.inj h)).symm
  · intro x hx
    unfold pyIntR
    rw [if_pos hx]
  · intro x hx
    unfold pyIntR
    rw [if_neg (by linarith)]
  · unfold pyIntR
    rw [if_pos (by norm_num)]
    rw [Int.floor_eq_iff]
    norm_num
  · rw [round_eq]
    rw [show ((37 : ℝ) / 10 + 1 / 2) = 42 / 10 by norm_num]
    rw [Int.floor_eq_iff]
    norm_num
  · unfold pyIntR
    rw [if_neg (by norm_num)]
    rw [Int.ceil_eq_iff]
    norm_num
  · rw [Int.floor_eq_iff]
    norm_num

/-- Witness for C10 extracting its truncation-versus-rounding facts at a
concretely evaluated normalization. -/
theorem c10_truncation_witness :
    pyIntR ((37 : ℝ) / 10) = 3 ∧ round ((37 : ℝ) / 10) = 4 :=
  (c10_truncation [0] 0 255 0 [0] true
    (normSilentEval [0] 0 255 0 (by decide) (by decide) (by decide) (by decide))).2.2.2.1

/-! Helper lemmas about the Python ranges, indexing, and the scan loops of
the trimmer. -/

lemma mem_pyRangeUp {a b j : ℤ} : j ∈ pyRangeUp a b ↔ a ≤ j ∧ j < b := by
  simp only [pyRangeUp, List.mem_map, List.mem_range]
  constructor
  · rintro ⟨k, hk, rfl⟩; omega
  · intro h; exact ⟨(j - a).toNat, by omega, by omega⟩

lemma mem_pyRangeDown {a b j : ℤ} : j ∈ pyRangeDown a b ↔ b < j ∧ j ≤ a := by
  simp only [pyRangeDown, List.mem_map, List.mem_range]
  constructor
  · rintro ⟨k, hk, rfl⟩; omega
  · intro h; exact ⟨(a - j).toNat, by omega, by omega⟩

lemma pyRangeDown_pairwise (a b : ℤ) : (pyRangeDown a b).Pairwise (fun x y => y < x) := by
  unfold pyRangeDown
  rw [List.pairwise_map]
  refine List.Pairwise.imp ?_ (List.pairwise_lt_range _)
  intro x y h
  omega

lemma pyRangeDown_cons {a b : ℤ} (h : b < a) :
    pyRangeDown a b = a :: pyRangeDown (a - 1) b := by
  unfold pyRangeDown
  have hn : (a - b).toNat = (a - 1 - b).toNat + 1 := by omega
  rw [hn, List.range_succ_eq_map, List.map_cons, List.map_map]
  refine congrArg₂ _ (by omega) (List.map_congr_left ?_)
  intro k _
  simp only [Function.comp_apply]
  omega

lemma pyRangeDown_nil {a b : ℤ} (h : a ≤ b) : pyRangeDown a b = [] := by
  unfold pyRangeDown
  rw [Int.toNat_of_nonpos (by omega)]
  rfl

lemma getI_eq_getD {l : List ℤ} {i : ℤ} (h0 : 0 ≤ i) (h1 : i < (l.length : ℤ)) :
    getI l i = some (l.getD i.toNat 0) := by
  unfold getI
  rw [dif_neg (by omega), dif_pos h1]
  congr 1
  rw [List.getD_eq_getElem?_getD, List.getElem?_eq_getElem (by omega)]
  simp [List.get_eq_getElem]

lemma getI_none_of_ge_len {l : List ℤ} {i : ℤ} (h : (l.length : ℤ) ≤ i) : getI l i = none := by
  unfold getI
  have h0 : (0 : ℤ) ≤ (l.length : ℤ) := by positivity
  rw [dif_neg (by omega), dif_neg (by omega)]

lemma zcScan_eq_none_cross (samples : List ℤ) (off : ℤ) (l : List ℤ)
    (h : ∀ i ∈ l, 0 < i → ∃ a b, getI samples i = some a ∧ getI samples (i + off) = some b ∧
      crossesAt a b = false) :
    zcScan samples off true l = some none := by
  induction l with
  | nil => rfl
  | cons i t ih =>
    have ht : ∀ j ∈ t, 0 < j → ∃ a b, getI samples j = some a ∧ getI samples (j + off) = some b ∧
        crossesAt a b = false := fun j hj => h j (List.mem_cons_of_mem i hj)
    by_cases hi : 0 < i
    · obtain ⟨a, b, ha, hb, hc⟩ := h i (List.mem_cons_self i t) hi
      simp only [zcScan]
      rw [if_neg (by simp; omega)]
      rw [ha, hb]
      simp only [hc, Bool.false_eq_true, if_false]
      exact ih ht
    · simp only [zcScan]
      rw [if_pos (by simp; omega)]
      exact ih ht

lemma zcScan_finds (samples : List ℤ) (off : ℤ) (l : List ℤ)
    (hl : l.Pairwise (fun x y => y < x)) {istar : ℤ} (hmem : istar ∈ l) (hpos : 0 < istar)
    {a b : ℤ} (ha : getI samples istar = some a) (hb : getI samples (istar + off) = some b)
    (hc : crossesAt a b = true)
    (hafter : ∀ i ∈ l, istar < i → ∃ c d, getI samples i = some c ∧
      getI samples (i + off) = some d ∧ crossesAt c d = false) :
    zcScan samples off true l = some (some istar) := by
  induction l with
  | nil => cases hmem
  | cons x t ih =>
    rcases List.mem_cons.mp hmem with hx | hx
    · subst hx
      simp only [zcScan]
      rw [if_neg (by simp; omega)]
      rw [ha, hb]
      simp [hc]
    · have hxgt : istar < x := (List.pairwise_cons.mp hl).1 istar hx
      obtain ⟨c, d, hcx, hdx, hcd⟩ := hafter x (List.mem_cons_self x t) hxgt
      simp only [zcScan]
      rw [if_neg (by simp; omega)]
      rw [hcx, hdx]
      simp only [hcd, Bool.false_eq_true, if_false]
      exact ih (List.pairwise_cons.mp hl).2 hx
        (fun j hj hij => hafter j (List.mem_cons_of_mem x hj) hij)

lemma zcScan_head_err (samples : List ℤ) (off : ℤ) (i : ℤ) (t : List ℤ)
    (hi : 0 < i) (h : getI samples i = none) :
    zcScan samples off true (i :: t) = none := by
  simp only [zcScan]
  rw [if_neg (by simp; omega)]
  rw [h]

lemma fzc_backward_no_cross {samples : List ℤ} {pos window : ℤ}
    (h : ∀ i, max 0 (pos - window) < i → i ≤ pos →
      ∃ a b, getI samples i = some a ∧ getI samples (i - 1) = some b ∧ crossesAt a b = false) :
    find_zero_crossing samples pos .backward window = some pos := by
  simp only [find_zero_crossing]
  rw [zcScan_eq_none_cross]
  intro i hm _
  obtain ⟨hgt, hle⟩ := mem_pyRangeDown.mp hm
  obtain ⟨a, b, ha, hb, hc⟩ := h i hgt hle
  exact ⟨a, b, ha, by rw [show i + -1 = i - 1 by ring]; exact hb, hc⟩

lemma fzc_backward_finds {samples : List ℤ} {pos window istar : ℤ}
    (h1 : max 0 (pos - window) < istar) (h2 : istar ≤ pos) (hpos : 0 < istar)
    {a b : ℤ} (ha : getI samples istar = some a) (hb : getI samples (istar - 1) = some b)
    (hc : crossesAt a b = true)
    (hafter : ∀ i, istar < i → i ≤ pos →
      ∃ c d, getI samples i = some c ∧ getI samples (i - 1) = some d ∧ crossesAt c d = false) :
    find_zero_crossing samples pos .backward window = some istar := by
  simp only [find_zero_crossing]
  rw [zcScan_finds samples (-1) _ (pyRangeDown_pairwise _ _)
    (mem_pyRangeDown.mpr ⟨h1, h2⟩) hpos
    ha (by rw [show istar + -1 = istar - 1 by ring]; exact hb) hc]
  intro i hm hgt
  obtain ⟨c, d, hic, hid, hcd⟩ := hafter i hgt (mem_pyRangeDown.mp hm).2
  exact ⟨c, d, hic, by rw [show i + -1 = i - 1 by ring]; exact hid, hcd⟩

lemma fzc_backward_err_len {samples : List ℤ} {window : ℤ}
    (hpos : 1 ≤ (samples.length : ℤ)) (hw : 1 ≤ window) :
    find_zero_crossing samples (samples.length : ℤ) .backward window = none := by
  simp only [find_zero_crossing]
  rw [pyRangeDown_cons (by omega)]
  rw [zcScan_head_err _ _ _ _ (by omega) (getI_none_of_ge_len le_rfl)]

lemma le_window_peak {l : List ℤ} {z i stop j : ℤ} (hj : j ∈ pyRangeUp i stop) :
    |l.getD j.toNat 0 - z| ≤ window_peak l z i stop := by
  unfold window_peak
  exact le_foldr_max (List.mem_map_of_mem _ hj)

lemma window_peak_le {samples : List ℤ} {zero i stop B : ℤ} (hB : 0 ≤ B)
    (h : ∀ j ∈ pyRangeUp i stop, |samples.getD j.toNat 0 - zero| ≤ B) :
    window_peak samples zero i stop ≤ B := by
  unfold window_peak
  refine foldr_max_le hB ?_
  intro x hx
  rcases List.mem_map.mp hx with ⟨j, hj, rfl⟩
  exact h j hj

lemma db_gt_mono {a b m : ℤ} (t : ℚ) (hab : a ≤ b) (h : db_gt a m t = true) :
    db_gt b m t = true := by
  unfold db_gt at h ⊢
  rw [Bool.and_eq_true, decide_eq_true_eq] at h ⊢
  obtain ⟨ha, hlt⟩ := h
  have hpow : a ^ (20 * t.den) ≤ b ^ (20 * t.den) := pow_le_pow_left₀ ha.le hab _
  refine ⟨by omega, ?_⟩
  split_ifs at hlt ⊢ with hs
  · rw [decide_eq_true_eq] at hlt ⊢
    exact lt_of_lt_of_le hlt hpow
  · rw [decide_eq_true_eq] at hlt ⊢
    refine lt_of_lt_of_le hlt ?_
    exact mul_le_mul_of_nonneg_right hpow (by positivity)

lemma db_gt_false_of_le {a b m : ℤ} (t : ℚ) (hab : a ≤ b)
    (h : db_gt b m t = false) : db_gt a m t = false := by
  by_contra hcon
  rw [Bool.not_eq_false] at hcon
  rw [db_gt_mono t hab hcon] at h
  cases h

/-- Justification of pyIntOfMul: it is exactly the Python int() truncation
toward zero (floor for a nonnegative product, ceiling for a negative one)
of the exact rational product x * k. -/
lemma pyIntOfMul_eq_trunc (x : ℚ) (k : ℤ) :
    pyIntOfMul x k = if 0 ≤ x * (k : ℚ) then ⌊x * (k : ℚ)⌋ else ⌈x * (k : ℚ)⌉ := by
  have hdpos : (0 : ℚ) < ((x.den : ℕ) : ℚ) := by exact_mod_cast x.den_pos
  have hxk : x * (k : ℚ) = ((x.num * k : ℤ) : ℚ) / ((x.den : ℕ) : ℚ) := by
    conv_lhs => rw [← Rat.num_div_den x]
    push_cast
    ring
  have hsign : (0 ≤ x * (k : ℚ)) ↔ 0 ≤ x.num * k := by
    rw [hxk, le_div_iff₀ hdpos, zero_mul]
    exact_mod_cast Iff.rfl
  unfold pyIntOfMul
  by_cases h : 0 ≤ x.num * k
  · rw [if_pos (hsign.mpr h), hxk, Rat.floor_intCast_div_natCast,
      Int.tdiv_eq_ediv h (by positivity)]
  · rw [if_neg (fun hc => h (hsign.mp hc)), hxk]
    rw [show ((x.num * k : ℤ) : ℚ) / ((x.den : ℕ) : ℚ)
        = -((((-(x.num * k) : ℤ)) : ℚ) / ((x.den : ℕ) : ℚ)) from by push_cast; ring]
    rw [Int.ceil_neg, Rat.floor_intCast_div_natCast]
    have htd : Int.tdiv (x.num * k) ((x.den : ℕ) : ℤ) = -((-(x.num * k)) / ((x.den : ℕ) : ℤ)) := by
      conv_lhs => rw [show x.num * k = -(-(x.num * k)) from by ring]
      rw [Int.neg_tdiv, Int.tdiv_eq_ediv (by omega) (by positivity)]
    rw [htd]

/-- Justification of db_gt: for a nonnegative magnitude and positive full
scale, the integer comparison db_gt is exactly the comparison of the real
dB level 20*log10(a/m) (minus infinity at zero magnitude) against the
threshold. -/
lemma db_gt_iff_level {a m : ℤ} (t : ℚ) (ha : 0 ≤ a) (hm : 0 < m) :
    db_gt a m t = true ↔ ((t : ℝ) : EReal) < calculate_db_level a m := by
  have hden : t.den ≠ 0 := t.den_nz
  by_cases haz : a = 0
  · subst haz
    simp only [db_gt, calculate_db_level]
    rw [show (decide ((0 : ℤ) < 0)) = false from rfl]
    rw [if_pos (by simp : ((0 : ℤ) : ℝ) / (m : ℝ) ≤ 0)]
    simp
  · have ha0 : (0 : ℤ) < a := by omega
    have hax : (0 : ℝ) < (a : ℝ) / (m : ℝ) :=
      div_pos (by exact_mod_cast ha0) (by exact_mod_cast hm)
    have hkey : ((t : ℝ) < 20 * Real.logb 10 ((a : ℝ) / (m : ℝ))) ↔
        (10 : ℝ) ^ (t.num) < ((a : ℝ) / (m : ℝ)) ^ (20 * t.den) := by
      rw [show ((t : ℝ) < 20 * Real.logb 10 ((a : ℝ) / (m : ℝ))) ↔
          ((t : ℝ) / 20 < Real.logb 10 ((a : ℝ) / (m : ℝ))) from by
        constructor <;> intro h <;> linarith]
      rw [Real.lt_logb_iff_rpow_lt (by norm_num) hax]
      rw [← pow_lt_pow_iff_left₀ (Real.rpow_nonneg (by norm_num) _) hax.le
        (by omega : 20 * t.den ≠ 0)]
      rw [← Real.rpow_natCast ((10 : ℝ) ^ ((t : ℝ) / 20)) (20 * t.den),
        ← Real.rpow_mul (by norm_num)]
      rw [show ((t : ℝ) / 20) * (((20 * t.den : ℕ)) : ℝ) = ((t.num : ℤ) : ℝ) from by
        have hd : ((t.den : ℝ)) ≠ 0 := by exact_mod_cast hden
        have hmul : (t : ℝ) * (t.den : ℝ) = (t.num : ℝ) := by
          rw [Rat.cast_def]
          field_simp
        push_cast
        rw [← hmul]
        ring]
      rw [Real.rpow_intCast]
    have hcal : calculate_db_level a m =
        ((20 * Real.logb 10 ((a : ℝ) / (m : ℝ)) : ℝ) : EReal) := by
      simp only [calculate_db_level]
      rw [if_neg (not_le.mpr hax)]
    rw [hcal, EReal.coe_lt_coe_iff, hkey]
    simp only [db_gt, Bool.and_eq_true, decide_eq_true_eq]
    have hmN : (0 : ℝ) < (m : ℝ) ^ (20 * t.den) := by positivity
    by_cases hs : 0 ≤ t.num
    · rw [if_pos hs]
      simp only [decide_eq_true_eq]
      rw [div_pow, lt_div_iff₀ hmN]
      rw [show (10 : ℝ) ^ t.num = (10 : ℝ) ^ (t.num.toNat) from by
        rw [← Int.toNat_of_nonneg hs, zpow_natCast, Int.toNat_of_nonneg hs]]
      constructor
      · rintro ⟨-, h⟩
        exact_mod_cast h
      · intro h
        exact ⟨ha0, by exact_mod_cast h⟩
    · rw [if_neg hs]
      simp only [decide_eq_true_eq]
      set K := (-t.num).toNat with hKdef
      have hK : t.num = -(K : ℤ) := by omega
      have h10K : (0 : ℝ) < (10 : ℝ) ^ K := by positivity
      rw [show (10 : ℝ) ^ t.num = 1 / (10 : ℝ) ^ K from by
        rw [hK, zpow_neg, zpow_natCast, one_div]]
      rw [div_pow, div_lt_div_iff₀ h10K hmN, one_mul]
      constructor
      · rintro ⟨-, h⟩
        exact_mod_cast h
      · intro h
        exact ⟨ha0, by exact_mod_cast h⟩

lemma find?_first {p : ℤ → Bool} {l : List ℤ} (hl : l.Pairwise (fun x y => y < x))
    {i : ℤ} (hi : i ∈ l) (hp : p i = true)
    (hafter : ∀ j ∈ l, i < j → p j = false) : l.find? p = some i := by
  induction l with
  | nil => cases hi
  | cons x t ih =>
    rcases List.mem_cons.mp hi with h | h
    · subst h
      rw [List.find?_cons_of_pos _ hp]
    · have hx : i < x := (List.pairwise_cons.mp hl).1 i h
      rw [List.find?_cons_of_neg _ (by rw [hafter x (List.mem_cons_self x t) hx]; simp)]
      exact ih (List.pairwise_cons.mp hl).2 h
        (fun j hj hij => hafter j (List.mem_cons_of_mem x hj) hij)

lemma find_end_point_of_first_loud {samples : List ℤ} {zero maxv : ℤ} {t : ℚ} {ws : ℤ}
    {d : ℚ} {r : ℤ} {y : ℤ}
    (hmem : y ∈ pyRangeDown ((samples.length : ℤ) - ws) 0)
    (hloud : db_gt (window_peak samples zero y (min (y + ws) (samples.length : ℤ)))
      maxv t = true)
    (hafter : ∀ i ∈ pyRangeDown ((samples.length : ℤ) - ws) 0, y < i →
      db_gt (window_peak samples zero i (min (i + ws) (samples.length : ℤ))) maxv t = false) :
    find_end_point samples zero maxv t ws d r =
      find_zero_crossing samples
        (min (y + ws + pyIntOfMul d r) (samples.length : ℤ)) .backward 1000 := by
  simp only [find_end_point]
  rw [find?_first (pyRangeDown_pairwise _ _) hmem hloud hafter]

lemma find_end_point_of_no_loud {samples : List ℤ} {zero maxv : ℤ} {t : ℚ} {ws : ℤ}
    {md : ℚ} {fr : ℤ}
    (h : ∀ i ∈ pyRangeDown ((samples.length : ℤ) - ws) 0,
      db_gt (window_peak samples zero i (min (i + ws) (samples.length : ℤ))) maxv t = false) :
    find_end_point samples zero maxv t ws md fr = some (samples.length : ℤ) := by
  simp only [find_end_point]
  rw [List.find?_eq_none.mpr (fun i hi => by rw [h i hi]; simp)]

lemma pyIntOfMul_nonneg {x : ℚ} {k : ℤ} (hx : 0 ≤ x) (hk : 0 ≤ k) : 0 ≤ pyIntOfMul x k :=
  Int.tdiv_nonneg (mul_nonneg (Rat.num_nonneg.mpr hx) hk) (by positivity)

lemma getD_replicate {n : ℕ} {c : ℤ} {j : ℕ} :
    (List.replicate n c).getD j 0 = if j < n then c else 0 := by
  rw [List.getD_eq_getElem?_getD, List.getElem?_replicate]
  split <;> simp


/-- Unfolding of the single-channel trim path at given intermediate
results. -/
lemma trim_samples_mono {samples : List ℤ} {zero maxv : ℤ} {t md : ℚ} {fr : ℤ} {ep ep2 : ℤ}
    (h1 : find_end_point samples zero maxv t 1024 md fr = some ep)
    (h2 : find_zero_crossing samples ep .backward 1000 = some ep2) :
    trim_samples samples 1 zero maxv t md fr = some (pyTake samples ep2) := by
  simp only [trim_samples]
  rw [if_neg (by omega : ¬ (1 < 1))]
  simp only [h1, h2]

/-- Unfolding of the single-channel trim path when the zero-crossing
search raises. -/
lemma trim_samples_mono_err {samples : List ℤ} {zero maxv : ℤ} {t md : ℚ} {fr : ℤ} {ep : ℤ}
    (h1 : find_end_point samples zero maxv t 1024 md fr = some ep)
    (h2 : find_zero_crossing samples ep .backward 1000 = none) :
    trim_samples samples 1 zero maxv t md fr = none := by
  simp only [trim_samples]
  rw [if_neg (by omega : ¬ (1 < 1))]
  simp only [h1, h2]

/-- Unfolding of the single-channel trim path when find_end_point itself
raises. -/
lemma trim_samples_mono_err2 {samples : List ℤ} {zero maxv : ℤ} {t md : ℚ} {fr : ℤ}
    (h1 : find_end_point samples zero maxv t 1024 md fr = none) :
    trim_samples samples 1 zero maxv t md fr = none := by
  simp only [trim_samples]
  rw [if_neg (by omega : ¬ (1 < 1))]
  simp only [h1]

/-- C1 (code bug): trimming any non-empty single-channel 16-bit buffer of
constant full-scale tone at threshold -60 dB does not succeed: the end
point clamps to the buffer length (the final window is loud), and the
backward zero-crossing search then starts by reading samples[length],
an IndexError, so the trim_audio_file handler returns failure and writes no
output, instead of the no-op trim the specification describes. -/
theorem c1_full_scale_trim_errors (n : ℕ) (h : 1 ≤ n) :
    trim_samples (List.replicate n 32767) 1 0 32767 (-60) (1 / 2) 44100 = none := by
  have hlen : ((List.replicate n (32767 : ℤ)).length : ℤ) = (n : ℤ) := by simp
  have hms : 0 ≤ pyIntOfMul (1 / 2 : ℚ) 44100 := pyIntOfMul_nonneg (by norm_num) (by norm_num)
  by_cases hn : (n : ℤ) ≤ 1024
  · have hfe : find_end_point (List.replicate n (32767 : ℤ)) 0 32767 (-60) 1024 (1 / 2) 44100 =
        some ((List.replicate n (32767 : ℤ)).length : ℤ) := by
      refine find_end_point_of_no_loud ?_
      intro i hi
      rw [pyRangeDown_nil (by omega)] at hi
      cases hi
    have hz : find_zero_crossing (List.replicate n (32767 : ℤ))
        ((List.replicate n (32767 : ℤ)).length : ℤ) .backward 1000 = none :=
      fzc_backward_err_len (by omega) (by norm_num)
    simp only [trim_samples]
    rw [if_neg (by omega : ¬ (1 < 1))]
    simp only [hfe, hz]
  · have hfe : find_end_point (List.replicate n (32767 : ℤ)) 0 32767 (-60) 1024 (1 / 2) 44100 =
        find_zero_crossing (List.replicate n (32767 : ℤ))
          (min (((List.replicate n (32767 : ℤ)).length : ℤ) - 1024 + 1024 + pyIntOfMul (1 / 2) 44100)
            ((List.replicate n (32767 : ℤ)).length : ℤ)) .backward 1000 := by
      refine find_end_point_of_first_loud (y := ((List.replicate n (32767 : ℤ)).length : ℤ) - 1024)
        (mem_pyRangeDown.mpr ⟨by omega, by omega⟩) ?_ ?_
      · refine db_gt_mono (a := 32767) (-60) ?_ (by decide)
        have hj : ((List.replicate n (32767 : ℤ)).length : ℤ) - 1024 ∈
            pyRangeUp (((List.replicate n (32767 : ℤ)).length : ℤ) - 1024)
              (min (((List.replicate n (32767 : ℤ)).length : ℤ) - 1024 + 1024)
                ((List.replicate n (32767 : ℤ)).length : ℤ)) :=
          mem_pyRangeUp.mpr ⟨le_rfl, by omega⟩
        have := le_window_peak (l := List.replicate n (32767 : ℤ)) (z := 0) hj
        rwa [getD_replicate, if_pos (by omega), sub_zero, abs_of_nonneg (by norm_num)] at this
      · intro i hi hgt
        exfalso
        have := mem_pyRangeDown.mp hi
        omega
    rw [show min (((List.replicate n (32767 : ℤ)).length : ℤ) - 1024 + 1024 + pyIntOfMul (1 / 2) 44100)
        ((List.replicate n (32767 : ℤ)).length : ℤ) = ((List.replicate n (32767 : ℤ)).length : ℤ)
      by omega] at hfe
    rw [fzc_backward_err_len (by omega) (by norm_num)] at hfe
    simp only [trim_samples]
    rw [if_neg (by omega : ¬ (1 < 1))]
    simp only [hfe]

/-- Witness for C1 at the one-second 44100 Hz full-scale buffer. -/
theorem c1_full_scale_trim_errors_witness :
    trim_samples (List.replicate 44100 32767) 1 0 32767 (-60) (1 / 2) 44100 = none :=
  c1_full_scale_trim_errors 44100 (by norm_num)

/-! Helper lemmas for buffers given as a sample function over range N. -/

lemma getD_rangeMap {N : ℕ} {f : ℕ → ℤ} {j : ℕ} :
    ((List.range N).map f).getD j 0 = if j < N then f j else 0 := by
  rw [List.getD_eq_getElem?_getD, List.getElem?_map]
  by_cases h : j < N
  · rw [List.getElem?_range h]
    simp [h]
  · rw [List.getElem?_eq_none (by simpa using h)]
    simp [h]

lemma length_rangeMap {N : ℕ} {f : ℕ → ℤ} : ((List.range N).map f).length = N := by simp

lemma getI_rangeMap {N : ℕ} {f : ℕ → ℤ} {i : ℤ} (h0 : 0 ≤ i) (h1 : i < (N : ℤ)) :
    getI ((List.range N).map f) i = some (f i.toNat) := by
  rw [getI_eq_getD h0 (by rw [length_rangeMap]; exact h1), getD_rangeMap, if_pos (by omega)]

lemma window_peak_rangeMap_le {N : ℕ} {f : ℕ → ℤ} {zero B i stop : ℤ}
    (hB : 0 ≤ B) (hi : 0 ≤ i) (hstop : stop ≤ (N : ℤ))
    (h : ∀ k : ℕ, i ≤ (k : ℤ) → (k : ℤ) < stop → |f k - zero| ≤ B) :
    window_peak ((List.range N).map f) zero i stop ≤ B := by
  refine window_peak_le hB ?_
  intro j hj
  obtain ⟨h1, h2⟩ := mem_pyRangeUp.mp hj
  rw [getD_rangeMap, if_pos (by omega)]
  exact h j.toNat (by omega) (by omega)

lemma window_peak_rangeMap_ge {N : ℕ} {f : ℕ → ℤ} {z i s : ℤ} (k : ℕ)
    (hk1 : i ≤ (k : ℤ)) (hk2 : (k : ℤ) < s) (hkN : k < N) :
    |f k - z| ≤ window_peak ((List.range N).map f) z i s := by
  have := le_window_peak (l := (List.range N).map f) (z := z)
    (mem_pyRangeUp.mpr ⟨hk1, hk2⟩)
  rwa [getD_rangeMap, Int.toNat_natCast, if_pos hkN] at this

lemma fzc_backward_rangeMap_no_cross {N : ℕ} {f : ℕ → ℤ} {pos window : ℤ}
    (hposN : pos < (N : ℤ))
    (h : ∀ k : ℕ, max 0 (pos - window) < (k : ℤ) → (k : ℤ) ≤ pos →
      crossesAt (f k) (f (k - 1)) = false) :
    find_zero_crossing ((List.range N).map f) pos .backward window = some pos := by
  refine fzc_backward_no_cross ?_
  intro i hgt hle
  refine ⟨f i.toNat, f (i.toNat - 1), getI_rangeMap (by omega) (by omega), ?_, ?_⟩
  · rw [getI_rangeMap (by omega) (by omega)]
    congr 2
    omega
  · exact h i.toNat (by omega) (by omega)

lemma fzc_backward_rangeMap_finds {N : ℕ} {f : ℕ → ℤ} {pos window : ℤ} (kstar : ℕ)
    (h1 : max 0 (pos - window) < (kstar : ℤ)) (h2 : (kstar : ℤ) ≤ pos) (hposN : pos < (N : ℤ))
    (hc : crossesAt (f kstar) (f (kstar - 1)) = true)
    (hafter : ∀ k : ℕ, (kstar : ℤ) < (k : ℤ) → (k : ℤ) ≤ pos →
      crossesAt (f k) (f (k - 1)) = false) :
    find_zero_crossing ((List.range N).map f) pos .backward window = some (kstar : ℤ) := by
  have hb : getI ((List.range N).map f) ((kstar : ℤ) - 1) = some (f (kstar - 1)) := by
    rw [getI_rangeMap (by omega) (by omega)]
    congr 2
    omega
  refine fzc_backward_finds h1 h2 (by omega)
    (getI_rangeMap (by omega) (by omega)) hb hc ?_
  intro i hgt hle
  refine ⟨f i.toNat, f (i.toNat - 1), getI_rangeMap (by omega) (by omega), ?_, ?_⟩
  · rw [getI_rangeMap (by omega) (by omega)]
    congr 2
    omega
  · exact hafter i.toNat (by omega) (by omega)

lemma crossesAt_pos {a b : ℤ} (ha : 0 < a) (hb : 0 < b) : crossesAt a b = false := by
  simp only [crossesAt, Bool.or_eq_false_iff, Bool.and_eq_false_iff,
    decide_eq_false_iff_not, not_le, not_lt]
  omega

/-- Sample function of the C2 counterexample channel: one loud sample at
index 1 and a quiet zero crossing (30, -30, both below -60 dBFS at 16 bit)
at indices 499, 500, in 1026 samples otherwise at zero. -/
def c2fun (k : ℕ) : ℤ :=
  if k = 1 then 1000 else if k = 499 then 30 else if k = 500 then -30 else 0

/-- Channel stream for the C2 counterexample. -/
def c2buf : List ℤ := (List.range 1026).map c2fun

lemma c2fun_zero {k : ℕ} (h1 : k ≠ 1) (h2 : k ≠ 499) (h3 : k ≠ 500) : c2fun k = 0 := by
  unfold c2fun
  rw [if_neg h1, if_neg h2, if_neg h3]

lemma c2_quiet_windows {i : ℤ} (h2 : 2 ≤ i) :
    db_gt (window_peak c2buf 0 i (min (i + 1024) 1026)) 32767 (-60) = false := by
  refine db_gt_false_of_le (b := 30) (-60) ?_ (by decide)
  refine window_peak_rangeMap_le (by norm_num) (by omega) (by omega) ?_
  intro k hk1 hk2
  unfold c2fun
  split_ifs with ha hb hc
  · exfalso; omega
  · norm_num
  · norm_num
  · norm_num

lemma c2_loud_window :
    db_gt (window_peak c2buf 0 1 (min (1 + 1024) 1026)) 32767 (-60) = true := by
  rw [show min ((1 : ℤ) + 1024) 1026 = 1025 from by norm_num]
  unfold c2buf
  refine db_gt_mono (a := 1000) (-60) ?_ (by decide)
  have h := window_peak_rangeMap_ge (N := 1026) (f := c2fun) (z := 0) (i := 1)
    (s := 1025) 1 (by norm_num) (by norm_num) (by norm_num)
  rw [show c2fun 1 = 1000 from by decide,
    show |(1000 : ℤ) - 0| = 1000 from by norm_num] at h
  exact h

lemma c2_find_end_point : find_end_point c2buf 0 32767 (-60) 1024 0 44100 = some 501 := by
  have hlen : ((c2buf.length : ℤ)) = 1026 := by simp [c2buf]
  have hmem : (1 : ℤ) ∈ pyRangeDown ((c2buf.length : ℤ) - 1024) 0 := by
    rw [hlen]
    exact mem_pyRangeDown.mpr (by norm_num)
  have hloud : db_gt (window_peak c2buf 0 1 (min (1 + 1024) (c2buf.length : ℤ)))
      32767 (-60) = true := by
    rw [hlen]
    exact c2_loud_window
  have hafter : ∀ i ∈ pyRangeDown ((c2buf.length : ℤ) - 1024) 0, (1 : ℤ) < i →
      db_gt (window_peak c2buf 0 i (min (i + 1024) (c2buf.length : ℤ))) 32767 (-60) = false := by
    intro i hi hgt
    rw [hlen] at hi ⊢
    exact c2_quiet_windows (by omega)
  have hfe := find_end_point_of_first_loud (d := 0) (r := 44100) hmem hloud hafter
  rw [hfe, hlen, show pyIntOfMul (0 : ℚ) 44100 = 0 from by decide,
    show min ((1 : ℤ) + 1024 + 0) 1026 = 1025 from by norm_num]
  unfold c2buf
  have h501 : ((501 : ℕ) : ℤ) = (501 : ℤ) := rfl
  rw [← h501]
  refine fzc_backward_rangeMap_finds 501 (by norm_num) (by norm_num) (by norm_num)
    (by decide) ?_
  intro k hk1 hk2
  rw [c2fun_zero (by omega) (by omega) (by omega),
    c2fun_zero (by omega) (by omega) (by omega)]
  decide

/-- Counterexample to C2 as stated: on c2buf every window starting at 2 or
later is below the -60 dB threshold and the window starting at 1 exceeds
it, so the first loud window (scanning backward) starts at 1 and the
end-point formula of the claim gives min(1 + 1024 + 0, 1026) = 1025; but
find_end_point returns 501, the zero crossing it additionally searches
backward from 1025. -/
theorem c2_scan_formula_cex :
    db_gt (window_peak c2buf 0 2 (min (2 + 1024) 1026)) 32767 (-60) = false ∧
    db_gt (window_peak c2buf 0 1 (min (1 + 1024) 1026)) 32767 (-60) = true ∧
    find_end_point c2buf 0 32767 (-60) 1024 0 44100 = some 501 ∧
    min ((1 : ℤ) + 1024 + pyIntOfMul 0 44100) 1026 = 1025 ∧ (501 : ℤ) ≠ 1025 := by
  refine ⟨c2_quiet_windows (by norm_num), c2_loud_window, c2_find_end_point, ?_, by norm_num⟩
  rw [show pyIntOfMul (0 : ℚ) 44100 = 0 from by decide]
  norm_num

/-- C2 amended: for the first backward-scanned window whose maximum level
exceeds threshold_db (at start index istar), the per-channel scan returns
the result of the backward zero-crossing search (window 1000) from the end
point min(istar + window_size + min_tail_samples, length) - an IndexError
when that clamped end point equals the buffer length; and if no window
exceeds the threshold, the end point is the full buffer length, so
silence-only input is left untouched. -/
theorem c2_scan_characterized (samples : List ℤ) (zero maxv : ℤ) (t : ℚ) (ws : ℤ)
    (md : ℚ) (fr : ℤ) :
    ((∀ i ∈ pyRangeDown ((samples.length : ℤ) - ws) 0,
        db_gt (window_peak samples zero i (min (i + ws) (samples.length : ℤ))) maxv t = false) →
      find_end_point samples zero maxv t ws md fr = some (samples.length : ℤ)) ∧
    (∀ istar ∈ pyRangeDown ((samples.length : ℤ) - ws) 0,
      db_gt (window_peak samples zero istar (min (istar + ws) (samples.length : ℤ))) maxv t = true →
      (∀ i ∈ pyRangeDown ((samples.length : ℤ) - ws) 0, istar < i →
        db_gt (window_peak samples zero i (min (i + ws) (samples.length : ℤ))) maxv t = false) →
      find_end_point samples zero maxv t ws md fr =
        find_zero_crossing samples (min (istar + ws + pyIntOfMul md fr) (samples.length : ℤ))
          .backward 1000) :=
  ⟨fun h => find_end_point_of_no_loud h,
   fun _ hmem hloud hafter => find_end_point_of_first_loud hmem hloud hafter⟩

/-- Witness for C2 amended: an all-quiet three-sample channel keeps its
full length. -/
theorem c2_scan_characterized_witness :
    find_end_point [0, 0, 0] 0 32767 (-60) 1024 0 44100 = some (([0, 0, 0] : List ℤ).length : ℤ) :=
  (c2_scan_characterized [0, 0, 0] 0 32767 (-60) 1024 0 44100).1 (by decide)

/-- Sample function of the C4 buffer (mono 8-bit, unsigned, zero point
128): one loud sample (200) at index 1 and a quiet zero-point crossing
130, 126 (offsets +2, -2 from the 128 zero point, both below -40 dBFS) at
indices 499, 500, in 1026 samples otherwise at the 128 zero point. -/
def c4fun (k : ℕ) : ℤ :=
  if k = 1 then 200 else if k = 499 then 130 else if k = 500 then 126 else 128

/-- Mono 8-bit buffer for C4. -/
def c4buf : List ℤ := (List.range 1026).map c4fun

lemma c4fun_pos (k : ℕ) : 0 < c4fun k := by
  unfold c4fun
  split_ifs <;> norm_num

lemma c4fun_base {k : ℕ} (h1 : k ≠ 1) (h2 : k ≠ 499) (h3 : k ≠ 500) : c4fun k = 128 := by
  unfold c4fun
  rw [if_neg h1, if_neg h2, if_neg h3]

lemma c4_find_end_point : find_end_point c4buf 128 255 (-40) 1024 0 44100 = some 1025 := by
  have hlen : ((c4buf.length : ℤ)) = 1026 := by simp [c4buf]
  have hmem : (1 : ℤ) ∈ pyRangeDown ((c4buf.length : ℤ) - 1024) 0 := by
    rw [hlen]
    exact mem_pyRangeDown.mpr (by norm_num)
  have hloud : db_gt (window_peak c4buf 128 1 (min (1 + 1024) (c4buf.length : ℤ)))
      255 (-40) = true := by
    rw [hlen, show min ((1 : ℤ) + 1024) 1026 = 1025 from by norm_num]
    unfold c4buf
    refine db_gt_mono (a := 72) (-40) ?_ (by decide)
    have h := window_peak_rangeMap_ge (N := 1026) (f := c4fun) (z := 128) (i := 1)
      (s := 1025) 1 (by norm_num) (by norm_num) (by norm_num)
    rw [show c4fun 1 = 200 from by decide,
      show |(200 : ℤ) - 128| = 72 from by norm_num] at h
    exact h
  have hafter : ∀ i ∈ pyRangeDown ((c4buf.length : ℤ) - 1024) 0, (1 : ℤ) < i →
      db_gt (window_peak c4buf 128 i (min (i + 1024) (c4buf.length : ℤ))) 255 (-40) = false := by
    intro i hi hgt
    rw [hlen] at hi ⊢
    have hb := mem_pyRangeDown.mp hi
    refine db_gt_false_of_le (b := 2) (-40) ?_ (by decide)
    refine window_peak_rangeMap_le (by norm_num) (by omega) (by omega) ?_
    intro k hk1 hk2
    unfold c4fun
    split_ifs with ha hc hd
    · exfalso; omega
    · norm_num
    · norm_num
    · norm_num
  have hfe := find_end_point_of_first_loud (d := 0) (r := 44100) hmem hloud hafter
  rw [hfe, hlen, show pyIntOfMul (0 : ℚ) 44100 = 0 from by decide,
    show min ((1 : ℤ) + 1024 + 0) 1026 = 1025 from by norm_num]
  unfold c4buf
  have h1025 : ((1025 : ℕ) : ℤ) = (1025 : ℤ) := rfl
  rw [← h1025]
  refine fzc_backward_rangeMap_no_cross (by norm_num) ?_
  intro k hk1 hk2
  exact crossesAt_pos (c4fun_pos k) (c4fun_pos (k - 1))

/-- C4 (code bug): the trimmer hands the zero-crossing locator the raw
unsigned samples, not the zero_point-relative values the specification
requires.  On c4buf (threshold -40 dB, no tail) the end point before
snapping is 1025; since every raw 8-bit sample is positive the raw
backward search finds no crossing and the cut stays at 1025, while the
same search over the zero-centered stream finds the crossing at index
501. -/
theorem c4_snap_ignores_zero_point :
    find_end_point c4buf 128 255 (-40) 1024 0 44100 = some 1025 ∧
    trim_samples c4buf 1 128 255 (-40) 0 44100 = some (c4buf.take 1025) ∧
    find_zero_crossing (c4buf.map (fun s => s - 128)) 1025 .backward 1000 = some 501 ∧
    (1025 : ℤ) ≠ 501 := by
  have hsnap : find_zero_crossing c4buf 1025 .backward 1000 = some 1025 := by
    unfold c4buf
    refine fzc_backward_rangeMap_no_cross (by norm_num) ?_
    intro k hk1 hk2
    exact crossesAt_pos (c4fun_pos k) (c4fun_pos (k - 1))
  refine ⟨c4_find_end_point, ?_, ?_, by norm_num⟩
  · rw [trim_samples_mono c4_find_end_point hsnap]
    rw [show pyTake c4buf 1025 = c4buf.take 1025 from by
      rw [pyTake, if_neg (by norm_num)]
      congr 1]
  · unfold c4buf
    rw [List.map_map]
    have h501 : ((501 : ℕ) : ℤ) = (501 : ℤ) := rfl
    rw [← h501]
    refine fzc_backward_rangeMap_finds 501 (by norm_num) (by norm_num) (by norm_num)
      (by decide) ?_
    intro k hk1 hk2
    simp only [Function.comp_apply]
    rw [c4fun_base (by omega) (by omega) (by omega),
      c4fun_base (by omega) (by omega) (by omega)]
    decide


/-! C8: two-channel scenario at 44100 Hz, 2.0 seconds (88200 frames).
Channel 0 is loud for the first second and then quiet (with one tiny
below-threshold zero-crossing blip at frames 67000, 67001); channel 1 is
loud for 1.5 seconds and then silent. -/

/-- Sample function of C8 channel 0. -/
def c8f0 (k : ℕ) : ℤ :=
  if k < 44100 then 1000 else if k = 67000 then 1 else if k = 67001 then -1 else 0

/-- Sample function of C8 channel 1. -/
def c8f1 (k : ℕ) : ℤ := if k < 66150 then 1000 else 0

/-- C8 channel 0 (silent after 1.0 s). -/
def c8ch0 : List ℤ := (List.range 88200).map c8f0

/-- C8 channel 1 (silent after 1.5 s). -/
def c8ch1 : List ℤ := (List.range 88200).map c8f1

/-- The interleaved two-channel C8 input buffer. -/
def c8input : List ℤ := interleave2 c8ch0 c8ch1

lemma c8f0_zero {k : ℕ} (h1 : 44100 ≤ k) (h2 : k ≠ 67000) (h3 : k ≠ 67001) : c8f0 k = 0 := by
  unfold c8f0
  rw [if_neg (by omega), if_neg h2, if_neg h3]

lemma c8f1_zero {k : ℕ} (h : 66150 ≤ k) : c8f1 k = 0 := by
  unfold c8f1
  rw [if_neg (by omega)]

lemma takeEvery_two_cc (x y : ℤ) (t : List ℤ) :
    takeEvery 2 (x :: y :: t) = x :: takeEvery 2 t := rfl

lemma takeEvery_two_cons_drop (y : ℤ) (L : List ℤ) :
    takeEvery 2 (y :: L) = y :: takeEvery 2 (L.drop 1) := by
  cases L <;> rfl

lemma interleave2_split {a b : List ℤ} (h : a.length = b.length) :
    takeEvery 2 (interleave2 a b) = a ∧ takeEvery 2 ((interleave2 a b).drop 1) = b := by
  induction a generalizing b with
  | nil =>
    cases b with
    | nil => exact ⟨rfl, rfl⟩
    | cons y ys => simp at h
  | cons x xs ih =>
    cases b with
    | nil => simp at h
    | cons y ys =>
      obtain ⟨ih1, ih2⟩ := ih (b := ys) (by simpa using h)
      constructor
      · show takeEvery 2 (x :: y :: interleave2 xs ys) = x :: xs
        rw [takeEvery_two_cc, ih1]
      · show takeEvery 2 (y :: interleave2 xs ys) = y :: ys
        rw [takeEvery_two_cons_drop, ih2]

lemma splitChannels_two {a b : List ℤ} (h : a.length = b.length) :
    splitChannels 2 (interleave2 a b) = [a, b] := by
  obtain ⟨h1, h2⟩ := interleave2_split h
  unfold splitChannels
  rw [show List.range 2 = [0, 1] from rfl]
  simp only [List.map_cons, List.map_nil, List.drop_zero]
  rw [h1]
  rw [h2]

lemma c8_ch0_fep : find_end_point c8ch0 0 32767 (-60) 1024 0 44100 = some 45123 := by
  have hlen : ((c8ch0.length : ℤ)) = 88200 := by simp [c8ch0]
  have hmem : (44099 : ℤ) ∈ pyRangeDown ((c8ch0.length : ℤ) - 1024) 0 := by
    rw [hlen]
    exact mem_pyRangeDown.mpr (by norm_num)
  have hloud : db_gt (window_peak c8ch0 0 44099 (min (44099 + 1024) (c8ch0.length : ℤ)))
      32767 (-60) = true := by
    rw [hlen, show min ((44099 : ℤ) + 1024) 88200 = 45123 from by norm_num]
    unfold c8ch0
    refine db_gt_mono (a := 1000) (-60) ?_ (by decide)
    have hg := window_peak_rangeMap_ge (N := 88200) (f := c8f0) (z := 0) (i := 44099)
      (s := 45123) 44099 (by norm_num) (by norm_num) (by norm_num)
    rw [show c8f0 44099 = 1000 from by decide,
      show |(1000 : ℤ) - 0| = 1000 from by norm_num] at hg
    exact hg
  have hafter : ∀ i ∈ pyRangeDown ((c8ch0.length : ℤ) - 1024) 0, (44099 : ℤ) < i →
      db_gt (window_peak c8ch0 0 i (min (i + 1024) (c8ch0.length : ℤ))) 32767 (-60) = false := by
    intro i hi hgt
    rw [hlen] at hi ⊢
    have hb := mem_pyRangeDown.mp hi
    unfold c8ch0
    refine db_gt_false_of_le (b := 1) (-60) ?_ (by decide)
    refine window_peak_rangeMap_le (by norm_num) (by omega) (by omega) ?_
    intro k hk1 hk2
    unfold c8f0
    split_ifs with ha hc hd
    · exfalso; omega
    · norm_num
    · norm_num
    · norm_num
  have hfe := find_end_point_of_first_loud (d := 0) (r := 44100) hmem hloud hafter
  rw [hfe, hlen, show pyIntOfMul (0 : ℚ) 44100 = 0 from by decide,
    show min ((44099 : ℤ) + 1024 + 0) 88200 = 45123 from by norm_num]
  unfold c8ch0
  refine fzc_backward_rangeMap_no_cross (by norm_num) ?_
  intro k hk1 hk2
  rw [c8f0_zero (by omega) (by omega) (by omega), c8f0_zero (by omega) (by omega) (by omega)]
  decide

lemma c8_ch1_fep : find_end_point c8ch1 0 32767 (-60) 1024 0 44100 = some 67173 := by
  have hlen : ((c8ch1.length : ℤ)) = 88200 := by simp [c8ch1]
  have hmem : (66149 : ℤ) ∈ pyRangeDown ((c8ch1.length : ℤ) - 1024) 0 := by
    rw [hlen]
    exact mem_pyRangeDown.mpr (by norm_num)
  have hloud : db_gt (window_peak c8ch1 0 66149 (min (66149 + 1024) (c8ch1.length : ℤ)))
      32767 (-60) = true := by
    rw [hlen, show min ((66149 : ℤ) + 1024) 88200 = 67173 from by norm_num]
    unfold c8ch1
    refine db_gt_mono (a := 1000) (-60) ?_ (by decide)
    have hg := window_peak_rangeMap_ge (N := 88200) (f := c8f1) (z := 0) (i := 66149)
      (s := 67173) 66149 (by norm_num) (by norm_num) (by norm_num)
    rw [show c8f1 66149 = 1000 from by decide,
      show |(1000 : ℤ) - 0| = 1000 from by norm_num] at hg
    exact hg
  have hafter : ∀ i ∈ pyRangeDown ((c8ch1.length : ℤ) - 1024) 0, (66149 : ℤ) < i →
      db_gt (window_peak c8ch1 0 i (min (i + 1024) (c8ch1.length : ℤ))) 32767 (-60) = false := by
    intro i hi hgt
    rw [hlen] at hi ⊢
    have hb := mem_pyRangeDown.mp hi
    unfold c8ch1
    refine db_gt_false_of_le (b := 0) (-60) ?_ (by decide)
    refine window_peak_rangeMap_le le_rfl (by omega) (by omega) ?_
    intro k hk1 hk2
    rw [c8f1_zero (by omega)]
    norm_num
  have hfe := find_end_point_of_first_loud (d := 0) (r := 44100) hmem hloud hafter
  rw [hfe, hlen, show pyIntOfMul (0 : ℚ) 44100 = 0 from by decide,
    show min ((66149 : ℤ) + 1024 + 0) 88200 = 67173 from by norm_num]
  unfold c8ch1
  refine fzc_backward_rangeMap_no_cross (by norm_num) ?_
  intro k hk1 hk2
  rw [c8f1_zero (by omega), c8f1_zero (by omega)]
  decide

lemma c8_final_snap : find_zero_crossing c8ch0 67173 .backward 1000 = some 67002 := by
  unfold c8ch0
  have hcast : ((67002 : ℕ) : ℤ) = (67002 : ℤ) := rfl
  rw [← hcast]
  refine fzc_backward_rangeMap_finds 67002 (by norm_num) (by norm_num) (by norm_num)
    (by decide) ?_
  intro k hk1 hk2
  rw [c8f0_zero (by omega) (by omega) (by omega), c8f0_zero (by omega) (by omega) (by omega)]
  decide

lemma c8_split : splitChannels 2 c8input = [c8ch0, c8ch1] := by
  unfold c8input
  exact splitChannels_two (by simp [c8ch0, c8ch1])

lemma mapM_pair (f : List ℤ → Option ℤ) (a b : List ℤ) (x y : ℤ)
    (ha : f a = some x) (hb : f b = some y) : [a, b].mapM f = some [x, y] := by
  simp only [List.mapM, List.mapM.loop, ha, hb]
  rfl

/-- Unfolding of trim_end_point at given intermediate results, with the
channel split abstracted. -/
lemma trim_end_point_eq {samples : List ℤ} {n : ℕ} {zero maxv : ℤ} {t md : ℚ} {fr : ℤ}
    {chs : List (List ℤ)} {eps : List ℤ} {ep : ℤ}
    (hchs : splitChannels n samples = chs)
    (h1 : chs.mapM (fun ch => find_end_point ch zero maxv t 1024 md fr) = some eps)
    (h2 : eps.max? = some ep)
    (h3 : 0 < (chs.headD []).length) :
    trim_end_point samples n zero maxv t md fr =
      find_zero_crossing (chs.headD []) (min ep (((chs.headD []).length : ℤ) - 1))
        .backward 1000 := by
  subst hchs
  simp only [trim_end_point, h1, h2]
  rw [if_pos h3]

lemma c8_trim_end_point : trim_end_point c8input 2 0 32767 (-60) 0 44100 = some 67002 := by
  have hmapM : [c8ch0, c8ch1].mapM (fun ch => find_end_point ch 0 32767 (-60) 1024 0 44100) =
      some [45123, 67173] :=
    mapM_pair _ c8ch0 c8ch1 45123 67173 c8_ch0_fep c8_ch1_fep
  have hmax : ([(45123 : ℤ), 67173]).max? = some 67173 := by decide
  have hpos : 0 < (([c8ch0, c8ch1].headD []).length) := by
    simp only [List.headD_cons, c8ch0, length_rangeMap]
    norm_num
  rw [trim_end_point_eq c8_split hmapM hmax hpos]
  simp only [List.headD_cons]
  rw [show min (67173 : ℤ) ((c8ch0.length : ℤ) - 1) = 67173 from by
    simp only [c8ch0, length_rangeMap]
    norm_num]
  exact c8_final_snap

/-- Unfolding of the multi-channel trim path at a given cut point. -/
lemma trim_samples_multi {samples : List ℤ} {n : ℕ} {zero maxv : ℤ} {t md : ℚ} {fr : ℤ}
    {ep : ℤ} (hn : 1 < n) (h : trim_end_point samples n zero maxv t md fr = some ep) :
    trim_samples samples n zero maxv t md fr =
      some (((splitChannels n samples).map
        (fun ch => ch.take (min ep (ch.length : ℤ)).toNat)).flatten) := by
  simp only [trim_samples]
  rw [if_pos hn]
  simp only [h]

lemma c8_trim_samples : trim_samples c8input 2 0 32767 (-60) 0 44100 =
    some (c8ch0.take 67002 ++ c8ch1.take 67002) := by
  rw [trim_samples_multi (by omega) c8_trim_end_point, c8_split]
  simp only [List.map_cons, List.map_nil, List.flatten_cons, List.flatten_nil, List.append_nil]
  rw [show (min (67002 : ℤ) ((c8ch0.length : ℤ))).toNat = 67002 from by
      simp only [c8ch0, length_rangeMap]
      rw [show min (67002 : ℤ) ((88200 : ℕ) : ℤ) = 67002 from by norm_num]
      decide,
    show (min (67002 : ℤ) ((c8ch1.length : ℤ))).toNat = 67002 from by
      simp only [c8ch1, length_rangeMap]
      rw [show min (67002 : ℤ) ((88200 : ℕ) : ℤ) = 67002 from by norm_num]
      decide]

/-- C8: the overall cut point of the multi-channel trimmer is the maximum
(latest) of the per-channel end points, afterwards adjusted backward to the
nearest zero crossing found in channel 0 (from that maximum clamped to the
last index of the channel); in the concrete 2-channel 16-bit 44100 Hz scenario
of 2.0 seconds with channel 0 silent after 1.0 s and channel 1 silent
after 1.5 s (threshold -60 dB, no tail, window 1024), the per-channel end
points are 45123 and 67173, the maximum 67173 comes from channel 1
boundary near 1.5 s (66150 ≤ 67173 ≤ 66150 + 1024), and the cut lands on
the channel-0 zero crossing 67002 at or before that point. -/
theorem c8_cross_channel_reconciliation :
    (∀ (samples : List ℤ) (n : ℕ) (zero maxv : ℤ) (t md : ℚ) (fr : ℤ)
      (eps : List ℤ) (ep : ℤ),
      (splitChannels n samples).mapM
        (fun ch => find_end_point ch zero maxv t 1024 md fr) = some eps →
      eps.max? = some ep →
      0 < ((splitChannels n samples).headD []).length →
      trim_end_point samples n zero maxv t md fr =
        find_zero_crossing ((splitChannels n samples).headD [])
          (min ep ((((splitChannels n samples).headD []).length : ℤ) - 1)) .backward 1000) ∧
    find_end_point c8ch0 0 32767 (-60) 1024 0 44100 = some 45123 ∧
    find_end_point c8ch1 0 32767 (-60) 1024 0 44100 = some 67173 ∧
    max (45123 : ℤ) 67173 = 67173 ∧
    find_zero_crossing c8ch0 67173 .backward 1000 = some 67002 ∧
    trim_end_point c8input 2 0 32767 (-60) 0 44100 = some 67002 ∧
    trim_samples c8input 2 0 32767 (-60) 0 44100 =
      some (c8ch0.take 67002 ++ c8ch1.take 67002) ∧
    ((66150 : ℤ) ≤ 67173 ∧ (67173 : ℤ) ≤ 66150 + 1024 ∧ (67002 : ℤ) ≤ 67173) := by
  refine ⟨?_, c8_ch0_fep, c8_ch1_fep, by norm_num, c8_final_snap, c8_trim_end_point,
    c8_trim_samples, by norm_num, by norm_num, by norm_num⟩
  intro samples n zero maxv t md fr eps ep h1 h2 h3
  simp only [trim_end_point, h1, h2]
  rw [if_pos h3]

/-- Witness for the C8 reconciliation formula at a tiny all-quiet 2-channel
buffer. -/
theorem c8_cross_channel_reconciliation_witness :
    trim_end_point [0, 0, 0, 0] 2 0 32767 (-60) 0 44100 =
      find_zero_crossing ((splitChannels 2 [0, 0, 0, 0]).headD [])
        (min 2 ((((splitChannels 2 [0, 0, 0, 0]).headD []).length : ℤ) - 1)) .backward 1000 :=
  c8_cross_channel_reconciliation.1 [0, 0, 0, 0] 2 0 32767 (-60) 0 44100 [2, 2] 2
    (by decide) (by decide) (by decide)

/-- C9 (code bug): the multi-channel recombination truncates both channels
to the same frame count (here 2, total 4 samples, again divisible by the
channel count) but emits them channel after channel - [1, 2, 10, 20] - not
re-interleaved frame-major as [1, 10, 2, 20]. -/
theorem c9_recombination_not_interleaved :
    trim_samples [1, 10, 2, 20, 3, 30] 2 0 32767 (-60) 0 44100 = some [1, 2, 10, 20] ∧
    ([1, 2, 10, 20] : List ℤ).length % 2 = 0 ∧
    ([1, 2, 10, 20] : List ℤ) ≠ interleave2 [1, 2] [10, 20] :=
  ⟨by decide, by decide, by decide⟩

end TrimReaper
